import Mathlib

/-
Verification of the content-to-publish workflow of the tiktok-gruppoclasse-bot
repository: a shallow embedding of the content store (src/scraper.js,
ContentDatabase), the workflow orchestrator (src/scheduler.js,
AutomationScheduler.executeWorkflow), and the artifact producer
(src/video-generator.js, VideoGenerator), together with theorems that settle
the specified properties of those components.
-/

namespace GruppoClasse

/-- A candidate content item as produced by the source adapters (the objects
pushed by scrapePerle: an id and a text, provenance fields elided). -/
structure Candidate where
  id : String
  text : String
deriving DecidableEq, Repr

/-- A stored content item: one entry of the persisted perle array in
content-db.json.  Fields publishedAt and tiktokUrl are absent (none) until
markAsPublished sets them. -/
structure Perla where
  id : String
  text : String
  published : Bool
  publishedAt : Option String
  tiktokUrl : Option String
deriving DecidableEq, Repr

instance : Inhabited Perla := ⟨⟨"", "", false, none, none⟩⟩

/-- The record appended by addPerle for a fresh candidate: the spread
of the candidate with published set to false (publishedAt and tiktokUrl are
not fields of adapter output, hence absent). -/
def Candidate.toStored (c : Candidate) : Perla :=
  ⟨c.id, c.text, false, none, none⟩

/-- The id column of the store (db.perle.map of p.id in addPerle). -/
def storeIds (perle : List Perla) : List String :=
  perle.map (·.id)

/-- ContentDatabase.addPerle: computes the set of ids existing in the store at
call start, keeps only candidates whose id is not in that set, appends them
with published set to false, and returns the new store contents, the count of
added items, and whether the file was rewritten (only when the count is
positive). -/
def addPerle (perle : List Perla) (newPerle : List Candidate) :
    List Perla × Nat × Bool :=
  let existingIds := storeIds perle
  let toAdd := newPerle.filter (fun p => !existingIds.contains p.id)
  (perle ++ toAdd.map Candidate.toStored, toAdd.length, decide (toAdd.length > 0))

/-- The mutation markAsPublished applies to the perla it finds. -/
def publishPerla (p : Perla) (tiktokUrl now : String) : Perla :=
  { p with published := true, publishedAt := some now, tiktokUrl := some tiktokUrl }

/-- ContentDatabase.markAsPublished: finds the first perla with the given id,
sets published to true, publishedAt to the current timestamp and tiktokUrl to
the given reference; a missing id is a silent no-op. -/
def markAsPublished (perle : List Perla) (perlaId tiktokUrl now : String) :
    List Perla :=
  match perle with
  | [] => []
  | p :: ps =>
      if p.id = perlaId then publishPerla p tiktokUrl now :: ps
      else p :: markAsPublished ps perlaId tiktokUrl now

/-- ContentDatabase.getUnpublishedPerle: filters the store on the published
flag being false, preserving order. -/
def getUnpublishedPerle (perle : List Perla) : List Perla :=
  perle.filter (fun p => !p.published)

/-- The state of the persisted content-db.json file: missing, present but
unparseable, or present with a well-formed perle array. -/
inductive DbFile
  | missing
  | corrupt (raw : String)
  | good (perle : List Perla)
deriving DecidableEq, Repr

/-- The ways ContentDatabase.read can throw: readFileSync on a missing file,
or JSON.parse on corrupt content. -/
inductive ReadError
  | fileNotFound
  | parseError
deriving DecidableEq, Repr

/-- ContentDatabase.ensureDatabase: if the file does not exist, writes an
empty store; otherwise leaves the file alone (existsSync does not look at the
content). -/
def ensureDatabase : DbFile → DbFile
  | .missing => .good []
  | f => f

/-- ContentDatabase.read: readFileSync then JSON.parse, with no error
handling of its own — a missing file or corrupt content raises. -/
def read : DbFile → Except ReadError (List Perla)
  | .missing => .error .fileNotFound
  | .corrupt _ => .error .parseError
  | .good ps => .ok ps

section StoreLemmas

theorem addPerle_store_eq (perle : List Perla) (newPerle : List Candidate) :
    (addPerle perle newPerle).1 =
      perle ++ (newPerle.filter
        (fun p => !(storeIds perle).contains p.id)).map Candidate.toStored := rfl

theorem addPerle_count_eq (perle : List Perla) (newPerle : List Candidate) :
    (addPerle perle newPerle).2.1 =
      (newPerle.filter (fun p => !(storeIds perle).contains p.id)).length := rfl

theorem addPerle_write_eq (perle : List Perla) (newPerle : List Candidate) :
    (addPerle perle newPerle).2.2 =
      decide ((newPerle.filter
        (fun p => !(storeIds perle).contains p.id)).length > 0) := rfl

/-- The appended records all carry published = false and a fresh id. -/
theorem addPerle_appended (perle : List Perla) (newPerle : List Candidate) :
    ∀ p ∈ (addPerle perle newPerle).1.drop perle.length,
      p.published = false ∧ ¬ p.id ∈ storeIds perle := by
  intro p hp
  rw [addPerle_store_eq, List.drop_left, List.mem_map] at hp
  obtain ⟨c, hc, rfl⟩ := hp
  rw [List.mem_filter] at hc
  refine ⟨rfl, ?_⟩
  have hfresh : ¬ c.id ∈ storeIds perle := by simpa using hc.2
  exact hfresh

/-- addPerle only appends: the original store is an unchanged prefix. -/
theorem addPerle_take (perle : List Perla) (newPerle : List Candidate) :
    (addPerle perle newPerle).1.take perle.length = perle := by
  rw [addPerle_store_eq, List.take_left]

end StoreLemmas

/-- The ids of the records addPerle appends are the candidate ids that were
fresh at call start. -/
theorem storeIds_addPerle (perle : List Perla) (newPerle : List Candidate) :
    storeIds (addPerle perle newPerle).1 =
      storeIds perle ++
        (newPerle.filter (fun p => !(storeIds perle).contains p.id)).map (·.id) := by
  rw [addPerle_store_eq]
  unfold storeIds
  rw [List.map_append, List.map_map]
  rfl

/-- One merge call keeps the store ids duplicate-free, provided the ids inside
the call are themselves pairwise distinct. -/
theorem nodup_storeIds_addPerle (perle : List Perla) (newPerle : List Candidate)
    (h1 : (storeIds perle).Nodup) (h2 : (newPerle.map (·.id)).Nodup) :
    (storeIds (addPerle perle newPerle).1).Nodup := by
  rw [storeIds_addPerle]
  refine List.Nodup.append h1 ?_ ?_
  · exact List.Nodup.sublist
      (List.Sublist.map _ (List.filter_sublist newPerle)) h2
  · intro a ha hb
    rw [List.mem_map] at hb
    obtain ⟨c, hc, rfl⟩ := hb
    rw [List.mem_filter] at hc
    have : ¬ c.id ∈ storeIds perle := by simpa using hc.2
    exact this ha

/-- A sequence of ContentDatabase.addPerle calls (the store contents after
each call feed the next). -/
def applyMerges (perle : List Perla) (calls : List (List Candidate)) :
    List Perla :=
  calls.foldl (fun s c => (addPerle s c).1) perle

theorem nodup_storeIds_applyMerges (calls : List (List Candidate))
    (perle : List Perla) (h1 : (storeIds perle).Nodup)
    (h2 : ∀ cs ∈ calls, (cs.map (·.id)).Nodup) :
    (storeIds (applyMerges perle calls)).Nodup := by
  induction calls generalizing perle with
  | nil => exact h1
  | cons cs rest ih =>
      exact ih _
        (nodup_storeIds_addPerle _ _ h1 (h2 cs (List.mem_cons_self _ _)))
        (fun c hc => h2 c (List.mem_cons_of_mem _ hc))

/-- C4 counterexample: one addPerle call whose candidate list repeats an id
appends both copies, so the store ends with the id "a" twice — the claim that
the store always contains each distinct id exactly once fails. -/
theorem addPerle_duplicate_ids_in_one_call :
    storeIds (addPerle []
        [⟨"a", "primo testo"⟩, ⟨"a", "secondo testo"⟩]).1 = ["a", "a"] ∧
    ¬ (storeIds (addPerle []
        [⟨"a", "primo testo"⟩, ⟨"a", "secondo testo"⟩]).1).Nodup ∧
    (addPerle [] [⟨"a", "primo testo"⟩, ⟨"a", "secondo testo"⟩]).2.1 = 2 := by
  decide

/-- C4 (amended): deduplication is only against ids present in the store when
the call starts.  Under the proviso that each call's candidate list has
pairwise distinct ids, every sequence of merge calls keeps each distinct id
exactly once; each call appends only candidates whose id is not already
present, appends them with published = false, and returns the count of newly
added items. -/
theorem merge_sequences_distinct_ids (calls : List (List Candidate))
    (store : List Perla) (h1 : (storeIds store).Nodup)
    (h2 : ∀ cs ∈ calls, (cs.map (·.id)).Nodup) :
    (storeIds (applyMerges store calls)).Nodup ∧
    ∀ cands : List Candidate,
      (addPerle store cands).1.take store.length = store ∧
      (∀ p ∈ (addPerle store cands).1.drop store.length,
        p.published = false ∧ ¬ p.id ∈ storeIds store) ∧
      (addPerle store cands).2.1 =
        (addPerle store cands).1.length - store.length := by
  refine ⟨nodup_storeIds_applyMerges calls store h1 h2, fun cands => ?_⟩
  refine ⟨addPerle_take store cands, addPerle_appended store cands, ?_⟩
  rw [addPerle_store_eq, addPerle_count_eq, List.length_append,
    List.length_map, Nat.add_sub_cancel_left]

theorem merge_sequences_distinct_ids_witness :
    (storeIds ([] : List Perla)).Nodup ∧
    (storeIds (applyMerges []
      [[⟨"a", "x"⟩], [⟨"a", "y"⟩, ⟨"b", "z"⟩]])).Nodup := by
  refine ⟨by decide, ?_⟩
  exact (merge_sequences_distinct_ids
    [[⟨"a", "x"⟩], [⟨"a", "y"⟩, ⟨"b", "z"⟩]] [] (by decide) (by decide)).1

/-- C5 counterexample: loading a store whose persisted content is corrupt
raises a parse error to the caller instead of returning an empty collection;
ensureDatabase does not repair it, because it only checks existence. -/
theorem read_corrupt_raises :
    read (ensureDatabase (DbFile.corrupt "not json")) =
      Except.error ReadError.parseError ∧
    read (DbFile.corrupt "not json") ≠ Except.ok [] := by
  refine ⟨rfl, ?_⟩
  intro h
  exact Except.noConfusion h

/-- C5 (amended): only the missing-file case is recovered — ensureDatabase
recreates a valid empty store when the file does not exist, and reading it
then yields the empty collection; corrupt persisted content is left in place
by ensureDatabase and read raises a parse error to the caller. -/
theorem read_recovery_behavior :
    ensureDatabase DbFile.missing = DbFile.good [] ∧
    read (ensureDatabase DbFile.missing) = Except.ok [] ∧
    (∀ raw, ensureDatabase (DbFile.corrupt raw) = DbFile.corrupt raw) ∧
    (∀ raw, read (DbFile.corrupt raw) = Except.error ReadError.parseError) ∧
    (∀ ps, read (DbFile.good ps) = Except.ok ps) := by
  exact ⟨rfl, rfl, fun _ => rfl, fun _ => rfl, fun _ => rfl⟩

/-- C10: addPerle validates nothing about a candidate's text — any candidate
with a fresh id is appended, whatever its text (empty included) — and a call
in which every candidate id is already present leaves the store as it was and
does not rewrite the persisted file. -/
theorem addPerle_no_validation_no_write :
    (∀ (perle : List Perla) (cands : List Candidate) (c : Candidate),
       c ∈ cands → ¬ c.id ∈ storeIds perle →
       Candidate.toStored c ∈ (addPerle perle cands).1) ∧
    (∀ (perle : List Perla) (cands : List Candidate),
       (∀ c ∈ cands, c.id ∈ storeIds perle) →
       (addPerle perle cands).1 = perle ∧ (addPerle perle cands).2.2 = false) := by
  constructor
  · intro perle cands c hc hfresh
    rw [addPerle_store_eq, List.mem_append]
    right
    rw [List.mem_map]
    refine ⟨c, ?_, rfl⟩
    rw [List.mem_filter]
    exact ⟨hc, by simpa using hfresh⟩
  · intro perle cands hall
    have hfil : cands.filter (fun p => !(storeIds perle).contains p.id) = [] := by
      rw [List.filter_eq_nil_iff]
      intro c hc
      simpa using hall c hc
    constructor
    · rw [addPerle_store_eq, hfil]
      simp
    · rw [addPerle_write_eq, hfil]
      simp

theorem addPerle_no_validation_no_write_witness :
    ((⟨"p9", ""⟩ : Candidate) ∈ [(⟨"p9", ""⟩ : Candidate)] ∧
     ¬ (Candidate.id ⟨"p9", ""⟩) ∈ storeIds [] ∧
     Candidate.toStored ⟨"p9", ""⟩ ∈ (addPerle [] [⟨"p9", ""⟩]).1) ∧
    ((addPerle [⟨"p9", "", false, none, none⟩] [⟨"p9", "altro"⟩]).1 =
       [⟨"p9", "", false, none, none⟩] ∧
     (addPerle [⟨"p9", "", false, none, none⟩] [⟨"p9", "altro"⟩]).2.2 = false) := by
  refine ⟨⟨by decide, by decide, ?_⟩, ?_⟩
  · exact addPerle_no_validation_no_write.1 [] [⟨"p9", ""⟩] ⟨"p9", ""⟩
      (by decide) (by decide)
  · exact addPerle_no_validation_no_write.2 [⟨"p9", "", false, none, none⟩]
      [⟨"p9", "altro"⟩] (by decide)

/-- The store operations of ContentDatabase that a workflow can issue:
addPerle (merge), markAsPublished, and the two pure reads. -/
inductive StoreOp
  | merge (cands : List Candidate)
  | markPublished (perlaId tiktokUrl now : String)
  | unpublishedItems
  | load

/-- The effect of one store operation on the persisted perle array (the two
read operations leave it unchanged). -/
def applyOp (perle : List Perla) : StoreOp → List Perla
  | .merge cands => (addPerle perle cands).1
  | .markPublished pid url now => markAsPublished perle pid url now
  | .unpublishedItems => perle
  | .load => perle

def applyOps (perle : List Perla) (ops : List StoreOp) : List Perla :=
  ops.foldl applyOp perle

/-- publishedAt and tiktokUrl are present exactly when published is true. -/
def flagsConsistent (p : Perla) : Prop :=
  (p.published = true ↔ p.publishedAt.isSome = true) ∧
  (p.published = true ↔ p.tiktokUrl.isSome = true)

def storeConsistent (perle : List Perla) : Prop :=
  ∀ p ∈ perle, flagsConsistent p

instance flagsConsistentDecidable (p : Perla) : Decidable (flagsConsistent p) :=
  inferInstanceAs (Decidable ((p.published = true ↔ p.publishedAt.isSome = true) ∧
    (p.published = true ↔ p.tiktokUrl.isSome = true)))

instance storeConsistentDecidable (perle : List Perla) :
    Decidable (storeConsistent perle) :=
  List.decidableBAll _ _

/-- How one store record may change across operations: identity and text are
stable and the published flag never goes back from true to false. -/
def Perla.evolved (p q : Perla) : Prop :=
  p.id = q.id ∧ p.text = q.text ∧ (p.published = true → q.published = true)

theorem Perla.evolved_refl (p : Perla) : Perla.evolved p p :=
  ⟨rfl, rfl, fun h => h⟩

theorem Perla.evolved_trans {p q r : Perla} (h1 : Perla.evolved p q)
    (h2 : Perla.evolved q r) : Perla.evolved p r :=
  ⟨h1.1.trans h2.1, h1.2.1.trans h2.2.1, fun h => h2.2.2 (h1.2.2 h)⟩

theorem markAsPublished_length (perle : List Perla) (pid url now : String) :
    (markAsPublished perle pid url now).length = perle.length := by
  induction perle with
  | nil => rfl
  | cons p ps ih =>
      by_cases h : p.id = pid <;> simp [markAsPublished, h, ih]

theorem markAsPublished_getElem (perle : List Perla) (pid url now : String)
    (i : Nat) (hi : i < perle.length)
    (hj : i < (markAsPublished perle pid url now).length) :
    (markAsPublished perle pid url now)[i] = perle[i] ∨
      (markAsPublished perle pid url now)[i] = publishPerla perle[i] url now := by
  induction perle generalizing i with
  | nil => simp at hi
  | cons p ps ih =>
      by_cases h : p.id = pid
      · cases i with
        | zero => right; simp [markAsPublished, h]
        | succ n => left; simp [markAsPublished, h]
      · cases i with
        | zero => left; simp [markAsPublished, h]
        | succ n =>
            have hn : n < ps.length := by
              simpa using hi
            have hm : n < (markAsPublished ps pid url now).length := by
              rw [markAsPublished_length]; exact hn
            have := ih n hn hm
            simpa [markAsPublished, h] using this

theorem mem_markAsPublished (perle : List Perla) (pid url now : String) :
    ∀ q ∈ markAsPublished perle pid url now,
      q ∈ perle ∨ ∃ p ∈ perle, q = publishPerla p url now := by
  induction perle with
  | nil => intro q hq; simp [markAsPublished] at hq
  | cons p ps ih =>
      intro q hq
      by_cases h : p.id = pid
      · simp only [markAsPublished, h, if_true, List.mem_cons] at hq
        rcases hq with hq | hq
        · exact Or.inr ⟨p, List.mem_cons_self _ _, hq⟩
        · exact Or.inl (List.mem_cons_of_mem _ hq)
      · simp only [markAsPublished, h, if_false, List.mem_cons] at hq
        rcases hq with hq | hq
        · exact Or.inl (by simp [hq])
        · rcases ih q hq with h1 | ⟨r, hr, hrq⟩
          · exact Or.inl (List.mem_cons_of_mem _ h1)
          · exact Or.inr ⟨r, List.mem_cons_of_mem _ hr, hrq⟩

theorem flagsConsistent_publishPerla (p : Perla) (url now : String) :
    flagsConsistent (publishPerla p url now) := by
  simp [flagsConsistent, publishPerla]

theorem flagsConsistent_toStored (c : Candidate) :
    flagsConsistent (Candidate.toStored c) := by
  simp [flagsConsistent, Candidate.toStored]

theorem storeConsistent_applyOp (perle : List Perla) (op : StoreOp)
    (h : storeConsistent perle) : storeConsistent (applyOp perle op) := by
  cases op with
  | merge cands =>
      intro p hp
      rw [applyOp, addPerle_store_eq, List.mem_append] at hp
      rcases hp with hp | hp
      · exact h p hp
      · rw [List.mem_map] at hp
        obtain ⟨c, _, rfl⟩ := hp
        exact flagsConsistent_toStored c
  | markPublished pid url now =>
      intro p hp
      rcases mem_markAsPublished perle pid url now p hp with h1 | ⟨q, _, rfl⟩
      · exact h p h1
      · exact flagsConsistent_publishPerla q url now
  | unpublishedItems => exact h
  | load => exact h

theorem length_le_applyOp (perle : List Perla) (op : StoreOp) :
    perle.length ≤ (applyOp perle op).length := by
  cases op with
  | merge cands =>
      rw [applyOp, addPerle_store_eq, List.length_append]
      exact Nat.le_add_right _ _
  | markPublished pid url now =>
      rw [applyOp, markAsPublished_length]
  | unpublishedItems => exact le_refl _
  | load => exact le_refl _

theorem Perla.evolved_of_eq {p q : Perla} (h : q = p) : Perla.evolved p q := by
  subst h; exact Perla.evolved_refl _

theorem Perla.evolved_of_publish {p q : Perla} {url now : String}
    (h : q = publishPerla p url now) : Perla.evolved p q := by
  subst h; exact ⟨rfl, rfl, fun _ => rfl⟩

theorem getElem_addPerle_left (perle : List Perla) (newPerle : List Candidate)
    (i : Nat) (hi : i < perle.length)
    (hj : i < (addPerle perle newPerle).1.length) :
    (addPerle perle newPerle).1[i] = perle[i] :=
  List.getElem_append_left hi

theorem evolved_applyOp (perle : List Perla) (op : StoreOp)
    (i : Nat) (hi : i < perle.length) (hj : i < (applyOp perle op).length) :
    Perla.evolved perle[i] ((applyOp perle op)[i]) := by
  cases op with
  | merge cands =>
      exact Perla.evolved_of_eq (getElem_addPerle_left perle cands i hi hj)
  | markPublished pid url now =>
      rcases markAsPublished_getElem perle pid url now i hi hj with h1 | h1
      · exact Perla.evolved_of_eq h1
      · exact Perla.evolved_of_publish h1
  | unpublishedItems => exact Perla.evolved_refl _
  | load => exact Perla.evolved_refl _

theorem evolved_applyOps (ops : List StoreOp) (perle : List Perla) :
    perle.length ≤ (applyOps perle ops).length ∧
    ∀ i (hi : i < perle.length), ∃ hj : i < (applyOps perle ops).length,
      Perla.evolved perle[i] ((applyOps perle ops)[i]) := by
  induction ops generalizing perle with
  | nil =>
      exact ⟨le_refl _, fun i hi => ⟨hi, Perla.evolved_refl _⟩⟩
  | cons op ops ih =>
      have hstep : applyOps perle (op :: ops) = applyOps (applyOp perle op) ops := rfl
      obtain ⟨hlen, hget⟩ := ih (applyOp perle op)
      rw [hstep]
      refine ⟨le_trans (length_le_applyOp perle op) hlen, ?_⟩
      intro i hi
      have hmid : i < (applyOp perle op).length :=
        Nat.lt_of_lt_of_le hi (length_le_applyOp perle op)
      obtain ⟨hj, hev⟩ := hget i hmid
      exact ⟨hj, Perla.evolved_trans (evolved_applyOp perle op i hi hmid) hev⟩

theorem storeConsistent_applyOps (ops : List StoreOp) (perle : List Perla)
    (h : storeConsistent perle) : storeConsistent (applyOps perle ops) := by
  induction ops generalizing perle with
  | nil => exact h
  | cons op ops ih => exact ih _ (storeConsistent_applyOp perle op h)

/-- C3: across every sequence of store operations, each record keeps its id,
its published flag only ever moves from false to true, and — starting from a
store in which publishedAt and tiktokUrl are present exactly on published
records (as every store built by these operations is) — that
iff-correspondence is preserved. -/
theorem store_published_monotone_and_consistent (ops : List StoreOp)
    (perle : List Perla) (h : storeConsistent perle) :
    storeConsistent (applyOps perle ops) ∧
    perle.length ≤ (applyOps perle ops).length ∧
    ∀ i (hi : i < perle.length), ∃ hj : i < (applyOps perle ops).length,
      ((applyOps perle ops)[i]).id = (perle[i]).id ∧
      ((perle[i]).published = true → ((applyOps perle ops)[i]).published = true) := by
  obtain ⟨hlen, hget⟩ := evolved_applyOps ops perle
  refine ⟨storeConsistent_applyOps ops perle h, hlen, ?_⟩
  intro i hi
  obtain ⟨hj, hev⟩ := hget i hi
  exact ⟨hj, hev.1.symm, hev.2.2⟩

theorem store_published_monotone_and_consistent_witness :
    storeConsistent [(⟨"a", "testo", true, some "2024", some "ref"⟩ : Perla)] ∧
    storeConsistent (applyOps [(⟨"a", "testo", true, some "2024", some "ref"⟩ : Perla)]
      [StoreOp.merge [⟨"b", "altro"⟩], StoreOp.markPublished "b" "ref2" "2025"]) := by
  refine ⟨by decide, ?_⟩
  exact (store_published_monotone_and_consistent
    [StoreOp.merge [⟨"b", "altro"⟩], StoreOp.markPublished "b" "ref2" "2025"]
    [(⟨"a", "testo", true, some "2024", some "ref"⟩ : Perla)] (by decide)).1

/-- unpublished.slice(-5) in executeWorkflow: the most-recently-added window
of at most five items. -/
def sliceLast5 {α : Type} (l : List α) : List α :=
  l.drop (l.length - 5)

/-- subset[Math.floor(Math.random() * subset.length)] in executeWorkflow: the
sampled integer in [0, subset.length) is modelled as rand % subset.length for
an arbitrary rand. -/
def selectPerla (unpublished : List Perla) (rand : Nat) : Perla :=
  (sliceLast5 unpublished).getD (rand % (sliceLast5 unpublished).length) default

theorem length_sliceLast5 {α : Type} (l : List α) :
    (sliceLast5 l).length = l.length - (l.length - 5) := by
  unfold sliceLast5
  rw [List.length_drop]

/-- C7: whenever the unpublished set is non-empty, the selected perla lies in
the window of the (at most five) most recently added unpublished items — a
suffix of the unpublished sequence — and every item of that window is
selected by some random draw. -/
theorem selectPerla_window (store : List Perla) (rand : Nat)
    (h : getUnpublishedPerle store ≠ []) :
    selectPerla (getUnpublishedPerle store) rand ∈
      sliceLast5 (getUnpublishedPerle store) ∧
    sliceLast5 (getUnpublishedPerle store) <:+ getUnpublishedPerle store ∧
    (sliceLast5 (getUnpublishedPerle store)).length ≤ 5 ∧
    ∀ p ∈ sliceLast5 (getUnpublishedPerle store),
      ∃ r, selectPerla (getUnpublishedPerle store) r = p := by
  have hpos : 0 < (getUnpublishedPerle store).length := List.length_pos.mpr h
  have hlen := length_sliceLast5 (getUnpublishedPerle store)
  have hwpos : 0 < (sliceLast5 (getUnpublishedPerle store)).length := by
    rw [hlen]; omega
  refine ⟨?_, ?_, ?_, ?_⟩
  · have hlt : rand % (sliceLast5 (getUnpublishedPerle store)).length <
        (sliceLast5 (getUnpublishedPerle store)).length := Nat.mod_lt rand hwpos
    rw [selectPerla, List.getD_eq_getElem _ default hlt]
    exact List.getElem_mem hlt
  · exact List.drop_suffix _ _
  · rw [hlen]; omega
  · intro p hp
    rw [List.mem_iff_getElem] at hp
    obtain ⟨i, hi, hip⟩ := hp
    refine ⟨i, ?_⟩
    rw [selectPerla, Nat.mod_eq_of_lt hi, List.getD_eq_getElem _ default hi, hip]

theorem selectPerla_window_witness :
    getUnpublishedPerle [(⟨"a", "testo", false, none, none⟩ : Perla)] ≠ [] ∧
    selectPerla (getUnpublishedPerle
        [(⟨"a", "testo", false, none, none⟩ : Perla)]) 3 ∈
      sliceLast5 (getUnpublishedPerle
        [(⟨"a", "testo", false, none, none⟩ : Perla)]) := by
  refine ⟨by decide, ?_⟩
  exact (selectPerla_window [(⟨"a", "testo", false, none, none⟩ : Perla)] 3
    (by decide)).1

/-- The outcomes of the collaborators that one executeWorkflow cycle consults:
the source adapter result (scraper.getPerle, which may throw), the video
generation outcome, whether the Telegram notifier is configured, the delivery
result (notifier.sendVideo returns a boolean, it does not throw), the random
draw and the clock. -/
structure WorkflowEnv where
  fetched : Except Unit (List Candidate)
  produceOk : Bool
  notifierConfigured : Bool
  deliverOk : Bool
  rand : Nat
  now : String

/-- The orchestrator state an executeWorkflow call can observe and mutate:
the re-entrancy flag this.isRunning and the store contents. -/
structure SchedulerState where
  isRunning : Bool
  perle : List Perla
deriving DecidableEq, Repr

/-- Trace markers for the collaborator and store invocations a cycle makes. -/
inductive WfEvent
  | fetch
  | merge
  | select
  | produce
  | deliver
  | publish
deriving DecidableEq, Repr

/-- AutomationScheduler.executeWorkflow: the guard on isRunning, the four
steps, the catch of any thrown error and the finally that clears the flag.
Returns the post state and the trace of invocations performed. -/
def executeWorkflow (env : WorkflowEnv) (s : SchedulerState) :
    SchedulerState × List WfEvent :=
  if s.isRunning then (s, [])
  else
    match env.fetched with
    | .error _ => ({ s with isRunning := false }, [.fetch])
    | .ok perle =>
      if perle.length = 0 then ({ s with isRunning := false }, [.fetch])
      else if (getUnpublishedPerle (addPerle s.perle perle).1).length = 0 then
        ({ isRunning := false, perle := (addPerle s.perle perle).1 },
         [.fetch, .merge])
      else if env.produceOk then
        if env.notifierConfigured then
          if env.deliverOk then
            ({ isRunning := false,
               perle := markAsPublished (addPerle s.perle perle).1
                 (selectPerla (getUnpublishedPerle (addPerle s.perle perle).1)
                   env.rand).id
                 "delivered-to-telegram" env.now },
             [.fetch, .merge, .select, .produce, .deliver, .publish])
          else
            ({ isRunning := false, perle := (addPerle s.perle perle).1 },
             [.fetch, .merge, .select, .produce, .deliver])
        else
          ({ isRunning := false, perle := (addPerle s.perle perle).1 },
           [.fetch, .merge, .select, .produce])
      else
        ({ isRunning := false, perle := (addPerle s.perle perle).1 },
         [.fetch, .merge, .select, .produce])

/-- C2: the orchestrator is single-flight — a trigger that arrives while the
flag is set returns at once with no collaborator invocation and no store
mutation, and an execution that does start always returns with the flag
cleared, whichever branch it exits through. -/
theorem executeWorkflow_single_flight (env : WorkflowEnv) (s : SchedulerState) :
    (s.isRunning = true → executeWorkflow env s = (s, [])) ∧
    (s.isRunning = false → (executeWorkflow env s).1.isRunning = false) := by
  constructor
  · intro h
    simp [executeWorkflow, h]
  · intro h
    rcases henv : env.fetched with e | items
    · simp [executeWorkflow, h, henv]
    · simp only [executeWorkflow, h, henv, Bool.false_eq_true, if_false]
      split_ifs <;> rfl

theorem executeWorkflow_single_flight_witness :
    executeWorkflow ⟨.ok [⟨"a", "x"⟩], true, true, true, 0, "t"⟩
        ⟨true, []⟩ = (⟨true, []⟩, []) ∧
    (executeWorkflow ⟨.ok [⟨"a", "x"⟩], true, true, true, 0, "t"⟩
        ⟨false, []⟩).1.isRunning = false :=
  ⟨(executeWorkflow_single_flight _ _).1 rfl,
   (executeWorkflow_single_flight _ _).2 rfl⟩

/-- Merging splits the unpublished view: the old unpublished items followed by
everything the call appended (all appended records are unpublished). -/
theorem getUnpublishedPerle_addPerle (perle : List Perla)
    (cands : List Candidate) :
    getUnpublishedPerle (addPerle perle cands).1 =
      getUnpublishedPerle perle ++
        (cands.filter
          (fun p => !(storeIds perle).contains p.id)).map Candidate.toStored := by
  rw [addPerle_store_eq]
  unfold getUnpublishedPerle
  rw [List.filter_append]
  congr 1
  rw [List.filter_eq_self]
  intro a ha
  rw [List.mem_map] at ha
  obtain ⟨c, _, rfl⟩ := ha
  rfl

theorem getUnpublishedPerle_addPerle_length (perle : List Perla)
    (cands : List Candidate) :
    (getUnpublishedPerle (addPerle perle cands).1).length =
      (getUnpublishedPerle perle).length + (addPerle perle cands).2.1 := by
  rw [getUnpublishedPerle_addPerle, List.length_append, List.length_map,
    addPerle_count_eq]

/-- C1 counterexample: a cycle that fails at the produce stage after the merge
added a fresh item ends with a strictly larger unpublished set — the
unpublished size is 0 before the cycle and 1 after it, so it is not left
unchanged by every produce-stage failure. -/
theorem executeWorkflow_produce_failure_grows_unpublished :
    (executeWorkflow ⟨.ok [⟨"a", "testo"⟩], false, true, true, 0, "2024"⟩
        ⟨false, []⟩).2 =
      [WfEvent.fetch, WfEvent.merge, WfEvent.select, WfEvent.produce] ∧
    (getUnpublishedPerle ([] : List Perla)).length = 0 ∧
    (getUnpublishedPerle
      (executeWorkflow ⟨.ok [⟨"a", "testo"⟩], false, true, true, 0, "2024"⟩
        ⟨false, []⟩).1.perle).length = 1 := by
  decide

/-- C1 (amended): a fetch-stage failure (adapter error or empty result) ends
the cycle with the store untouched and no merge attempted; a produce-stage or
deliver-stage failure ends the cycle with the store holding exactly the merge
result — nothing is published, and the unpublished set size equals its size
before the cycle plus the number of newly merged items (so it is unchanged
precisely when the fetch brought nothing new). -/
theorem executeWorkflow_failure_no_publish (env : WorkflowEnv)
    (s : SchedulerState) (h : s.isRunning = false) :
    (∀ e, env.fetched = Except.error e →
       (executeWorkflow env s).1.perle = s.perle ∧
       ¬ WfEvent.merge ∈ (executeWorkflow env s).2 ∧
       ¬ WfEvent.publish ∈ (executeWorkflow env s).2) ∧
    (env.fetched = Except.ok [] →
       (executeWorkflow env s).1.perle = s.perle ∧
       ¬ WfEvent.merge ∈ (executeWorkflow env s).2 ∧
       ¬ WfEvent.publish ∈ (executeWorkflow env s).2) ∧
    (∀ items, env.fetched = Except.ok items → env.produceOk = false →
       (executeWorkflow env s).1.perle = (addPerle s.perle items).1 ∧
       ¬ WfEvent.publish ∈ (executeWorkflow env s).2 ∧
       (getUnpublishedPerle (executeWorkflow env s).1.perle).length =
         (getUnpublishedPerle s.perle).length + (addPerle s.perle items).2.1) ∧
    (∀ items, env.fetched = Except.ok items → env.notifierConfigured = true →
       env.deliverOk = false →
       (executeWorkflow env s).1.perle = (addPerle s.perle items).1 ∧
       ¬ WfEvent.publish ∈ (executeWorkflow env s).2 ∧
       (getUnpublishedPerle (executeWorkflow env s).1.perle).length =
         (getUnpublishedPerle s.perle).length + (addPerle s.perle items).2.1) := by
  refine ⟨?_, ?_, ?_, ?_⟩
  · intro e he
    simp [executeWorkflow, h, he]
  · intro he
    simp [executeWorkflow, h, he]
  · intro items hit hprod
    simp only [executeWorkflow, h, hit, hprod, Bool.false_eq_true, if_false]
    split_ifs with h1 h2
    · have hitems : items = [] := List.length_eq_zero.mp h1
      subst hitems
      refine ⟨by simp [addPerle], by simp, ?_⟩
      simp [getUnpublishedPerle_addPerle_length, addPerle]
    · exact ⟨rfl, by simp, by
        rw [getUnpublishedPerle_addPerle_length]⟩
    · exact ⟨rfl, by simp, by
        rw [getUnpublishedPerle_addPerle_length]⟩
  · intro items hit hn hd
    simp only [executeWorkflow, h, hit, hn, hd, Bool.false_eq_true, if_false,
      eq_self_iff_true, if_true]
    split_ifs with h1 h2 h3
    · have hitems : items = [] := List.length_eq_zero.mp h1
      subst hitems
      refine ⟨by simp [addPerle], by simp, ?_⟩
      simp [getUnpublishedPerle_addPerle_length, addPerle]
    · exact ⟨rfl, by simp, by
        rw [getUnpublishedPerle_addPerle_length]⟩
    · exact ⟨rfl, by simp, by
        rw [getUnpublishedPerle_addPerle_length]⟩
    · exact ⟨rfl, by simp, by
        rw [getUnpublishedPerle_addPerle_length]⟩

theorem executeWorkflow_failure_no_publish_witness :
    (executeWorkflow ⟨.error (), true, true, true, 0, "t"⟩
        ⟨false, [⟨"a", "x", false, none, none⟩]⟩).1.perle =
      [⟨"a", "x", false, none, none⟩] ∧
    ¬ WfEvent.merge ∈ (executeWorkflow ⟨.error (), true, true, true, 0, "t"⟩
        ⟨false, [⟨"a", "x", false, none, none⟩]⟩).2 := by
  have hc := (executeWorkflow_failure_no_publish
    ⟨.error (), true, true, true, 0, "t"⟩
    ⟨false, [⟨"a", "x", false, none, none⟩]⟩ rfl).1 () rfl
  exact ⟨hc.1, hc.2.1⟩

/-- Existence flags for the three files createTikTokVideo touches: the temp
image, the temp audio and the output video.  Fresh timestamped paths, so all
start absent. -/
structure TempFiles where
  image : Bool
  audio : Bool
  video : Bool
deriving DecidableEq, Repr

/-- Outcome of the ffmpeg composition: success, failure that left a partial
output file behind, or failure before any output was written. -/
inductive VideoOutcome
  | ok
  | failPartialFile
  | failNoFile
deriving DecidableEq, Repr

/-- The pattern if (fs.existsSync(path)) fs.unlinkSync(path) from the catch
block of createTikTokVideo. -/
def unlinkIfPresent (present : Bool) : Bool :=
  if present then false else present

/-- The catch block of createTikTokVideo: conditional unlink of the image,
the audio and the video. -/
def cleanupOnError (t : TempFiles) : TempFiles :=
  ⟨unlinkIfPresent t.image, unlinkIfPresent t.audio, unlinkIfPresent t.video⟩

/-- VideoGenerator.createTikTokVideo, tracked at the level of file existence:
generateAudio writes the audio file only on success, createTextImage writes
the image only on success, generateVideo may fail with or without a partial
output file; the happy path unlinks the two temp files, the catch block
removes whatever exists of all three before rethrowing. -/
def createTikTokVideo (audioOk imageOk : Bool) (videoRes : VideoOutcome) :
    Except Unit Unit × TempFiles :=
  if audioOk then
    if imageOk then
      match videoRes with
      | .ok =>
          (Except.ok (),
           { image := false, audio := false, video := true })
      | .failPartialFile =>
          (Except.error (),
           cleanupOnError { image := true, audio := true, video := true })
      | .failNoFile =>
          (Except.error (),
           cleanupOnError { image := true, audio := true, video := false })
    else
      (Except.error (),
       cleanupOnError { image := false, audio := true, video := false })
  else
    (Except.error (),
     cleanupOnError { image := false, audio := false, video := false })

/-- C6: a failed production attempt always ends with none of the three files
present — no orphaned temp files survive, partial video included — and a
successful one ends with the temp image and audio removed and only the final
video remaining. -/
theorem createTikTokVideo_temp_cleanup (audioOk imageOk : Bool)
    (videoRes : VideoOutcome) :
    (createTikTokVideo audioOk imageOk videoRes).2 =
      (if audioOk = true ∧ imageOk = true ∧ videoRes = VideoOutcome.ok
       then ⟨false, false, true⟩ else ⟨false, false, false⟩) ∧
    (createTikTokVideo audioOk imageOk videoRes).1 =
      (if audioOk = true ∧ imageOk = true ∧ videoRes = VideoOutcome.ok
       then Except.ok () else Except.error ()) := by
  cases audioOk <;> cases imageOk <;> cases videoRes <;>
    simp [createTikTokVideo, cleanupOnError, unlinkIfPresent]

/-- One of the seven sequential .replace(range, empty) calls of removeEmojis:
drops every character whose code point lies in the closed range. -/
def stripRange (lo hi : Nat) (s : String) : String :=
  String.mk (s.data.filter
    (fun c => !(decide (lo ≤ c.toNat) && decide (c.toNat ≤ hi))))

/-- JavaScript String.prototype.trim: leading and trailing whitespace
removed. -/
def jsTrim (s : String) : String :=
  String.mk
    (((s.data.dropWhile Char.isWhitespace).reverse.dropWhile
      Char.isWhitespace).reverse)

/-- VideoGenerator.removeEmojis: the seven range strips, applied in source
order, then trim. -/
def removeEmojis (text : String) : String :=
  jsTrim (stripRange 0x1FA00 0x1FA6F (stripRange 0x1F900 0x1F9FF
    (stripRange 0x2700 0x27BF (stripRange 0x2600 0x26FF
      (stripRange 0x1F680 0x1F6FF (stripRange 0x1F300 0x1F5FF
        (stripRange 0x1F600 0x1F64F text)))))))

/-- A character lies in one of the seven stripped ranges. -/
def isEmojiChar (c : Char) : Bool :=
  (decide (0x1F600 ≤ c.toNat) && decide (c.toNat ≤ 0x1F64F)) ||
  (decide (0x1F300 ≤ c.toNat) && decide (c.toNat ≤ 0x1F5FF)) ||
  (decide (0x1F680 ≤ c.toNat) && decide (c.toNat ≤ 0x1F6FF)) ||
  (decide (0x2600 ≤ c.toNat) && decide (c.toNat ≤ 0x26FF)) ||
  (decide (0x2700 ≤ c.toNat) && decide (c.toNat ≤ 0x27BF)) ||
  (decide (0x1F900 ≤ c.toNat) && decide (c.toNat ≤ 0x1F9FF)) ||
  (decide (0x1FA00 ≤ c.toNat) && decide (c.toNat ≤ 0x1FA6F))

/-- googleTTS.getAudioUrl receives the text argument of generateAudio
unchanged. -/
def generateAudioRequestText (text : String) : String := text

/-- The text createTikTokVideo hands to generateAudio is perla.text itself. -/
def createTikTokVideoTtsText (perla : Perla) : String :=
  generateAudioRequestText perla.text

/-- The text createTextImage renders: removeEmojis is applied to it first. -/
def createTextImageText (text : String) : String :=
  removeEmojis text

/-- C8 counterexample: for a perla whose text carries an emoji, the TTS step
receives the text with the emoji still in it, even though removeEmojis would
have stripped it — the emoji strip is applied only on the image path. -/
theorem tts_receives_unsanitized_text :
    createTikTokVideoTtsText
      ⟨"test-001",
       String.mk (['C', 'i', 'a', 'o', ' '] ++ [Char.ofNat 0x1F600]),
       false, none, none⟩ =
      String.mk (['C', 'i', 'a', 'o', ' '] ++ [Char.ofNat 0x1F600]) ∧
    removeEmojis
      (String.mk (['C', 'i', 'a', 'o', ' '] ++ [Char.ofNat 0x1F600])) =
      "Ciao" ∧
    String.mk (['C', 'i', 'a', 'o', ' '] ++ [Char.ofNat 0x1F600]) ≠
      "Ciao" := by
  decide

theorem jsTrim_data_sublist (s : String) :
    List.Sublist (jsTrim s).data s.data := by
  show List.Sublist
    ((((s.data.dropWhile Char.isWhitespace).reverse.dropWhile
      Char.isWhitespace).reverse)) s.data
  have h1 : List.Sublist (s.data.dropWhile Char.isWhitespace) s.data :=
    List.dropWhile_sublist _
  have h2 : List.Sublist
      ((s.data.dropWhile Char.isWhitespace).reverse.dropWhile
        Char.isWhitespace)
      (s.data.dropWhile Char.isWhitespace).reverse :=
    List.dropWhile_sublist _
  have h3 := h2.reverse
  rw [List.reverse_reverse] at h3
  exact h3.trans h1

theorem mem_stripRange {c : Char} {lo hi : Nat} {s : String}
    (h : c ∈ (stripRange lo hi s).data) :
    c ∈ s.data ∧ (!(decide (lo ≤ c.toNat) && decide (c.toNat ≤ hi))) = true :=
  List.mem_filter.mp h

/-- C8 (amended): the sanitization is applied on the visual-rendering path,
not on the narration path — the TTS request receives the original item text
unchanged, while the text rendered into the image has every character of the
seven emoji ranges removed. -/
theorem emoji_strip_applied_to_image_not_tts (perla : Perla) :
    createTikTokVideoTtsText perla = perla.text ∧
    ∀ c ∈ (createTextImageText perla.text).data, isEmojiChar c = false := by
  refine ⟨rfl, ?_⟩
  intro c hc
  have h7 := mem_stripRange ((jsTrim_data_sublist _).subset hc)
  have h6 := mem_stripRange h7.1
  have h5 := mem_stripRange h6.1
  have h4 := mem_stripRange h5.1
  have h3 := mem_stripRange h4.1
  have h2 := mem_stripRange h3.1
  have h1 := mem_stripRange h2.1
  have e1 := h1.2
  have e2 := h2.2
  have e3 := h3.2
  have e4 := h4.2
  have e5 := h5.2
  have e6 := h6.2
  have e7 := h7.2
  rw [Bool.not_eq_eq_eq_not, Bool.not_true] at e1 e2 e3 e4 e5 e6 e7
  simp only [isEmojiChar, e1, e2, e3, e4, e5, e6, e7, Bool.or_self,
    Bool.or_false, Bool.false_or]

theorem emoji_strip_applied_to_image_not_tts_witness :
    createTikTokVideoTtsText
        ⟨"w", String.mk ['h', 'i', Char.ofNat 0x1F680], false, none, none⟩ =
      String.mk ['h', 'i', Char.ofNat 0x1F680] ∧
    isEmojiChar 'h' = false :=
  ⟨(emoji_strip_applied_to_image_not_tts
      ⟨"w", String.mk ['h', 'i', Char.ofNat 0x1F680], false, none, none⟩).1,
   (emoji_strip_applied_to_image_not_tts
      ⟨"w", String.mk ['h', 'i', Char.ofNat 0x1F680], false, none, none⟩).2
     'h' (by decide)⟩

/-- JavaScript text.split(' ') over the character list: splits at every
single space, keeping empty fragments. -/
def jsSplitSpaceAux : List Char → List Char → List (List Char)
  | [], acc => [acc.reverse]
  | c :: cs, acc =>
      if c = ' ' then acc.reverse :: jsSplitSpaceAux cs []
      else jsSplitSpaceAux cs (c :: acc)

def jsSplitSpace (s : String) : List String :=
  (jsSplitSpaceAux s.data []).map String.mk

theorem jsSplitSpaceAux_ne_nil (cs : List Char) :
    ∀ acc, jsSplitSpaceAux cs acc ≠ [] := by
  induction cs with
  | nil => intro acc; simp [jsSplitSpaceAux]
  | cons c cs ih =>
      intro acc
      unfold jsSplitSpaceAux
      split
      · simp
      · exact ih _

theorem jsSplitSpace_ne_nil (s : String) : jsSplitSpace s ≠ [] := by
  unfold jsSplitSpace
  intro h
  exact jsSplitSpaceAux_ne_nil s.data [] (List.map_eq_nil_iff.mp h)

/-- One iteration of the word-wrap loop in createTextImage: testLine is
currentLine + word + a space; if it measures over the limit and the current
line is non-empty, the current line is pushed and the word starts a new line,
otherwise the word is absorbed into the current line. -/
def wrapStep (measure : String → Nat) (maxWidth : Nat) :
    List String × String → String → List String × String
  | (lines, currentLine), word =>
      if measure (currentLine ++ word ++ " ") > maxWidth ∧ currentLine ≠ "" then
        (lines ++ [currentLine], word ++ " ")
      else (lines, currentLine ++ word ++ " ")

/-- The word-wrap of createTextImage: fold the step over the words starting
from no lines and an empty current line, then push the final current line. -/
def wrapWords (measure : String → Nat) (maxWidth : Nat)
    (words : List String) : List String :=
  let r := words.foldl (wrapStep measure maxWidth) ([], "")
  r.1 ++ [r.2]

/-- The lines createTextImage draws for a given text: removeEmojis first,
split on spaces, wrap against maxWidth = width - 200 (measure stands for the
canvas measureText width). -/
def createTextImageLines (measure : String → Nat) (width : Nat)
    (text : String) : List String :=
  wrapWords measure (width - 200) (jsSplitSpace (removeEmojis text))

/-- The line a group of consecutive words becomes: each word followed by one
space. -/
def lineOfGroup : List String → String
  | [] => ""
  | w :: ws => w ++ " " ++ lineOfGroup ws

theorem append_space_ne_empty (s : String) : s ++ " " ≠ "" := by
  intro h
  have h2 := congrArg String.length h
  have e1 : (" " : String).length = 1 := rfl
  have e2 : ("" : String).length = 0 := rfl
  rw [String.length_append, e1, e2] at h2
  omega

theorem lineOfGroup_single (w : String) : lineOfGroup [w] = w ++ " " := by
  show w ++ " " ++ lineOfGroup [] = w ++ " "
  show w ++ " " ++ "" = w ++ " "
  simp

theorem lineOfGroup_append_single (g : List String) (w : String) :
    lineOfGroup (g ++ [w]) = lineOfGroup g ++ w ++ " " := by
  induction g with
  | nil =>
      rw [List.nil_append, lineOfGroup_single]
      show w ++ " " = "" ++ w ++ " "
      simp
  | cons a g ih =>
      show a ++ " " ++ lineOfGroup (g ++ [w]) = a ++ " " ++ lineOfGroup g ++ w ++ " "
      rw [ih]
      simp [String.append_assoc]

theorem lineOfGroup_ne_empty (g : List String) (h : g ≠ []) :
    lineOfGroup g ≠ "" := by
  match g with
  | w :: ws =>
      show w ++ " " ++ lineOfGroup ws ≠ ""
      intro hcontra
      have h2 := congrArg String.length hcontra
      have e1 : (" " : String).length = 1 := rfl
      have e2 : ("" : String).length = 0 := rfl
      rw [String.length_append, String.length_append, e1, e2] at h2
      omega

theorem lineOfGroup_eq_empty (g : List String) (h : lineOfGroup g = "") :
    g = [] := by
  by_contra hne
  exact lineOfGroup_ne_empty g hne h

/-- Invariant of the wrap fold: the accumulated lines are the images of a
partition of the processed words into non-empty consecutive groups, and the
current line is the image of the trailing (possibly empty) group. -/
theorem wrapFold_groups (measure : String → Nat) (maxWidth : Nat) :
    ∀ (ws lines : List String) (cl : String) (gs : List (List String))
      (gcur : List String),
      lines = gs.map lineOfGroup → cl = lineOfGroup gcur →
      (∀ g ∈ gs, g ≠ []) →
      ∃ (gs2 : List (List String)) (gcur2 : List String),
        (ws.foldl (wrapStep measure maxWidth) (lines, cl)).1 =
          gs2.map lineOfGroup ∧
        (ws.foldl (wrapStep measure maxWidth) (lines, cl)).2 =
          lineOfGroup gcur2 ∧
        gs2.flatten ++ gcur2 = gs.flatten ++ gcur ++ ws ∧
        (∀ g ∈ gs2, g ≠ []) ∧
        (gcur2 = [] → ws = [] ∧ gcur = []) := by
  intro ws
  induction ws with
  | nil =>
      intro lines cl gs gcur hl hc hgs
      exact ⟨gs, gcur, hl, hc, by simp, hgs, fun h => ⟨rfl, h⟩⟩
  | cons w ws ih =>
      intro lines cl gs gcur hl hc hgs
      subst hl
      subst hc
      rw [List.foldl_cons]
      by_cases hcond : measure (lineOfGroup gcur ++ w ++ " ") > maxWidth ∧
          lineOfGroup gcur ≠ ""
      · have hstep : wrapStep measure maxWidth
            (gs.map lineOfGroup, lineOfGroup gcur) w =
            ((gs ++ [gcur]).map lineOfGroup, lineOfGroup [w]) := by
          rw [wrapStep, if_pos hcond]
          simp [lineOfGroup_single]
        rw [hstep]
        have hgs2 : ∀ g ∈ gs ++ [gcur], g ≠ [] := by
          intro g hg
          rcases List.mem_append.mp hg with hg | hg
          · exact hgs g hg
          · rw [List.mem_singleton] at hg
            subst hg
            intro hnil
            subst hnil
            exact hcond.2 rfl
        obtain ⟨gs2, gcur2, h1, h2, h3, h4, h5⟩ :=
          ih (List.map lineOfGroup (gs ++ [gcur])) (lineOfGroup [w])
            (gs ++ [gcur]) [w] rfl rfl hgs2
        refine ⟨gs2, gcur2, h1, h2, ?_, h4, ?_⟩
        · rw [h3]
          simp [List.append_assoc]
        · intro hnil
          rcases h5 hnil with ⟨_, hw⟩
          exact absurd hw (by simp)
      · have hstep : wrapStep measure maxWidth
            (gs.map lineOfGroup, lineOfGroup gcur) w =
            (gs.map lineOfGroup, lineOfGroup (gcur ++ [w])) := by
          rw [wrapStep, if_neg hcond, lineOfGroup_append_single]
        rw [hstep]
        obtain ⟨gs2, gcur2, h1, h2, h3, h4, h5⟩ :=
          ih (gs.map lineOfGroup) (lineOfGroup (gcur ++ [w])) gs (gcur ++ [w])
            rfl rfl hgs
        refine ⟨gs2, gcur2, h1, h2, ?_, h4, ?_⟩
        · rw [h3]
          simp [List.append_assoc]
        · intro hnil
          rcases h5 hnil with ⟨_, hw⟩
          exact absurd hw (by simp)

/-- The fold only ever appends to the accumulated list of lines. -/
theorem wrapFold_lines_extend (measure : String → Nat) (maxWidth : Nat) :
    ∀ (ws lines : List String) (cl : String),
      ∃ tail, (ws.foldl (wrapStep measure maxWidth) (lines, cl)).1 =
        lines ++ tail := by
  intro ws
  induction ws with
  | nil =>
      intro lines cl
      exact ⟨[], by simp⟩
  | cons w ws ih =>
      intro lines cl
      rw [List.foldl_cons, wrapStep]
      split
      · obtain ⟨tail, ht⟩ := ih (lines ++ [cl]) (w ++ " ")
        exact ⟨[cl] ++ tail, by rw [ht, List.append_assoc]⟩
      · exact ih lines _

/-- After at least one word is processed the current line is never empty (it
always ends in a space). -/
theorem wrapFold_cl_ne_empty (measure : String → Nat) (maxWidth : Nat) :
    ∀ (ws lines : List String) (cl : String),
      (cl ≠ "" ∨ ws ≠ []) →
      (ws.foldl (wrapStep measure maxWidth) (lines, cl)).2 ≠ "" := by
  intro ws
  induction ws with
  | nil =>
      intro lines cl h
      rcases h with h | h
      · exact h
      · exact absurd rfl h
  | cons w ws ih =>
      intro lines cl h
      rw [List.foldl_cons, wrapStep]
      split
      · exact ih _ _ (Or.inl (append_space_ne_empty w))
      · exact ih _ _ (Or.inl (append_space_ne_empty (cl ++ w)))

/-- A current line already over the limit (for a monotone measure) is pushed
unchanged at the next step, so it survives into the final lines. -/
theorem wrapFold_overwide_stays (measure : String → Nat) (maxWidth : Nat)
    (hmono : ∀ s t, measure s ≤ measure (s ++ t) ∧
      measure t ≤ measure (s ++ t)) :
    ∀ (ws lines : List String) (cl : String),
      measure cl > maxWidth → cl ≠ "" →
      cl ∈ (ws.foldl (wrapStep measure maxWidth) (lines, cl)).1 ++
        [(ws.foldl (wrapStep measure maxWidth) (lines, cl)).2] := by
  intro ws
  induction ws with
  | nil =>
      intro lines cl hm hne
      simp
  | cons w ws ih =>
      intro lines cl hm hne
      have h1 := (hmono cl w).1
      have h2 := (hmono (cl ++ w) " ").1
      have hover : measure (cl ++ w ++ " ") > maxWidth := by omega
      rw [List.foldl_cons]
      have hstep : wrapStep measure maxWidth (lines, cl) w =
          (lines ++ [cl], w ++ " ") := by
        rw [wrapStep, if_pos ⟨hover, hne⟩]
      rw [hstep]
      apply List.mem_append_left
      obtain ⟨tail, ht⟩ :=
        wrapFold_lines_extend measure maxWidth ws (lines ++ [cl]) (w ++ " ")
      rw [ht]
      simp

/-- A word that is over the limit on its own (for a monotone measure) ends up
as a line of its own among the final lines. -/
theorem wrapFold_overwide_selected (measure : String → Nat) (maxWidth : Nat)
    (hmono : ∀ s t, measure s ≤ measure (s ++ t) ∧
      measure t ≤ measure (s ++ t)) :
    ∀ (ws : List String) (w : String), w ∈ ws →
      measure (w ++ " ") > maxWidth →
      ∀ (lines : List String) (cl : String),
        w ++ " " ∈ (ws.foldl (wrapStep measure maxWidth) (lines, cl)).1 ++
          [(ws.foldl (wrapStep measure maxWidth) (lines, cl)).2] := by
  intro ws
  induction ws with
  | nil =>
      intro w hw
      simp at hw
  | cons a ws ih =>
      intro w hw hover lines cl
      rcases List.mem_cons.mp hw with heq | hw2
      · subst heq
        rw [List.foldl_cons]
        by_cases hcond : measure (cl ++ w ++ " ") > maxWidth ∧ cl ≠ ""
        · have hstep : wrapStep measure maxWidth (lines, cl) w =
              (lines ++ [cl], w ++ " ") := by
            rw [wrapStep, if_pos hcond]
          rw [hstep]
          exact wrapFold_overwide_stays measure maxWidth hmono ws
            (lines ++ [cl]) (w ++ " ") hover (append_space_ne_empty w)
        · have hcl : cl = "" := by
            by_contra hne
            apply hcond
            constructor
            · have h2 := (hmono cl (w ++ " ")).2
              rw [← String.append_assoc] at h2
              omega
            · exact hne
          subst hcl
          have hstep : wrapStep measure maxWidth (lines, "") w =
              (lines, "" ++ w ++ " ") := by
            rw [wrapStep, if_neg hcond]
          rw [hstep]
          have heq2 : "" ++ w ++ " " = w ++ " " := by simp
          rw [heq2]
          exact wrapFold_overwide_stays measure maxWidth hmono ws lines
            (w ++ " ") hover (append_space_ne_empty w)
      · rw [List.foldl_cons]
        exact ih w hw2 hover _ _

/-- A produced line either fits the limit or is a single word of the input
followed by its space. -/
def fitsOrWord (measure : String → Nat) (maxWidth : Nat)
    (words0 : List String) (line : String) : Prop :=
  measure line ≤ maxWidth ∨ ∃ w ∈ words0, line = w ++ " "

theorem wrapFold_fits (measure : String → Nat) (maxWidth : Nat)
    (words0 : List String) :
    ∀ (ws : List String), (∀ w ∈ ws, w ∈ words0) →
    ∀ (lines : List String) (cl : String),
      (∀ l ∈ lines, fitsOrWord measure maxWidth words0 l) →
      (cl = "" ∨ fitsOrWord measure maxWidth words0 cl) →
      (∀ l ∈ (ws.foldl (wrapStep measure maxWidth) (lines, cl)).1,
        fitsOrWord measure maxWidth words0 l) ∧
      ((ws.foldl (wrapStep measure maxWidth) (lines, cl)).2 = "" ∨
        fitsOrWord measure maxWidth words0
          (ws.foldl (wrapStep measure maxWidth) (lines, cl)).2) := by
  intro ws
  induction ws with
  | nil =>
      intro _ lines cl h1 h2
      exact ⟨h1, h2⟩
  | cons w ws ih =>
      intro hsub lines cl h1 h2
      have hw : w ∈ words0 := hsub w (List.mem_cons_self _ _)
      have hsub2 : ∀ x ∈ ws, x ∈ words0 :=
        fun x hx => hsub x (List.mem_cons_of_mem _ hx)
      rw [List.foldl_cons, wrapStep]
      split
      case isTrue hcond =>
        apply ih hsub2
        · intro l hl
          rcases List.mem_append.mp hl with hl | hl
          · exact h1 l hl
          · rw [List.mem_singleton] at hl
            subst hl
            rcases h2 with h2 | h2
            · exact absurd h2 hcond.2
            · exact h2
        · exact Or.inr (Or.inr ⟨w, hw, rfl⟩)
      case isFalse hcond =>
        refine ih hsub2 _ _ h1 ?_
        by_cases hm : measure (cl ++ w ++ " ") ≤ maxWidth
        · exact Or.inr (Or.inl hm)
        · have hcl : cl = "" := by
            by_contra hne
            exact hcond ⟨by omega, hne⟩
          subst hcl
          exact Or.inr (Or.inr ⟨w, hw, by simp⟩)

/-- C9: for every input text, the word-wrap of createTextImage (with any
monotone width measure) terminates with a partition of the words into
non-empty consecutive groups, one line per group in order with no word broken
across lines; every line either measures within maxWidth or is one single
word followed by its space; and a word that exceeds maxWidth on its own is
placed alone on a line of its own, untruncated. -/
theorem createTextImageLines_wrap (measure : String → Nat) (width : Nat)
    (text : String)
    (hmono : ∀ s t, measure s ≤ measure (s ++ t) ∧
      measure t ≤ measure (s ++ t)) :
    (∃ groups : List (List String),
       groups ≠ [] ∧ (∀ g ∈ groups, g ≠ []) ∧
       groups.flatten = jsSplitSpace (removeEmojis text) ∧
       createTextImageLines measure width text = groups.map lineOfGroup) ∧
    (∀ line ∈ createTextImageLines measure width text,
       measure line ≤ width - 200 ∨
       ∃ w ∈ jsSplitSpace (removeEmojis text), line = w ++ " ") ∧
    (∀ w ∈ jsSplitSpace (removeEmojis text),
       measure (w ++ " ") > width - 200 →
       w ++ " " ∈ createTextImageLines measure width text) := by
  have hw0 : jsSplitSpace (removeEmojis text) ≠ [] := jsSplitSpace_ne_nil _
  have hlines : createTextImageLines measure width text =
      ((jsSplitSpace (removeEmojis text)).foldl
        (wrapStep measure (width - 200)) ([], "")).1 ++
      [((jsSplitSpace (removeEmojis text)).foldl
        (wrapStep measure (width - 200)) ([], "")).2] := rfl
  refine ⟨?_, ?_, ?_⟩
  · obtain ⟨gs2, gcur2, h1, h2, h3, h4, h5⟩ :=
      wrapFold_groups measure (width - 200) (jsSplitSpace (removeEmojis text))
        [] "" [] [] rfl rfl (by simp)
    refine ⟨gs2 ++ [gcur2], by simp, ?_, ?_, ?_⟩
    · intro g hg
      rcases List.mem_append.mp hg with hg | hg
      · exact h4 g hg
      · rw [List.mem_singleton] at hg
        subst hg
        intro hnil
        rcases h5 hnil with ⟨hws, _⟩
        exact hw0 hws
    · have hfl : (gs2 ++ [gcur2]).flatten = gs2.flatten ++ gcur2 := by simp
      rw [hfl, h3]
      simp
    · rw [hlines, h1, h2, List.map_append]
      rfl
  · intro line hline
    rw [hlines] at hline
    obtain ⟨hl1, hl2⟩ :=
      wrapFold_fits measure (width - 200) (jsSplitSpace (removeEmojis text))
        (jsSplitSpace (removeEmojis text)) (fun w h => h) [] ""
        (fun l hl => absurd hl (List.not_mem_nil l)) (Or.inl rfl)
    rcases List.mem_append.mp hline with hl | hl
    · exact hl1 line hl
    · rw [List.mem_singleton] at hl
      subst hl
      rcases hl2 with hl2 | hl2
      · exact absurd hl2 (wrapFold_cl_ne_empty measure (width - 200)
          (jsSplitSpace (removeEmojis text)) [] "" (Or.inr hw0))
      · exact hl2
  · intro w hw hover
    rw [hlines]
    exact wrapFold_overwide_selected measure (width - 200) hmono
      (jsSplitSpace (removeEmojis text)) w hw hover [] ""

theorem createTextImageLines_wrap_witness :
    "bellissimo" ++ " " ∈
      createTextImageLines String.length 206 "ciao mondo bellissimo" :=
  (createTextImageLines_wrap String.length 206 "ciao mondo bellissimo"
    (fun s t => ⟨by rw [String.length_append]; omega,
                 by rw [String.length_append]; omega⟩)).2.2
    "bellissimo" (by decide) (by decide)

end GruppoClasse
